import Mathlib

/-
Verification development for the ubuntuzilla mozillapackager script.
The Python source (mozillapackager.py) is shallowly embedded: external
subprocesses are abstracted by their observable behaviour (exit codes and
captured output lines), interactive input is an explicit list of answers,
and each method of interest becomes a pure Lean function transcribed from
the source.
-/

namespace Ubuntuzilla

/-- Boolean test that the character list `n` occurs contiguously inside
`h`.  Used to model the Python call re.search with a literal pattern such
as re.search("w3m", executionstring). -/
def hasSubList (n : List Char) : List Char → Bool
  | [] => n.isEmpty
  | c :: rest => n.isPrefixOf (c :: rest) || hasSubList n rest

/-- String version of `hasSubList`. -/
def hasSubstr (n h : String) : Bool :=
  hasSubList n.data h.data

/-- Failure modes observable from `UtilityFunctions.getSystemOutput`: the
typed exception SystemCommandExecutionError raised on non-zero return
code, and the unguarded Python IndexError raised by result[0] on an empty
list. -/
inductive PyErr where
  | systemCommandExecutionError
  | indexError
  deriving DecidableEq, Repr

/-- Return value of `getSystemOutput`: a single string when numlines is 1,
otherwise a list of lines. -/
inductive SysOutput where
  | oneLine (s : String)
  | manyLines (l : List String)
  deriving DecidableEq, Repr

/-- Shallow embedding of `UtilityFunctions.getSystemOutput`.  The external
subprocess is abstracted by its observable behaviour: `returncode` is the
exit status of the spawned shell command and `raw` the list of captured
output lines.  Transcription of the source: when the command line contains
"w3m" and the output is empty or its first line starts with the text
"w3m: Can\x27t load", the return code is overwritten with 1; a non-zero
return code raises SystemCommandExecutionError; otherwise every line is
stripped and, for numlines = 1, the first line result[0] is returned
(raising IndexError when there is none), for numlines = 0 the whole list,
and otherwise the first numlines entries. -/
def getSystemOutput (executionstring : String) (returncode : Int)
    (raw : List String) (numlines : Nat) : Except PyErr SysOutput :=
  let rc : Int :=
    if hasSubstr "w3m" executionstring &&
        (raw.isEmpty ||
          (match raw with
           | [] => false
           | r0 :: _ => List.isPrefixOf "w3m: Can\x27t load".data r0.data)) then 1
    else returncode
  if rc ≠ 0 then
    Except.error PyErr.systemCommandExecutionError
  else
    let result := raw.map String.trim
    if numlines = 1 then
      match result with
      | [] => Except.error PyErr.indexError
      | x :: _ => Except.ok (SysOutput.oneLine x)
    else if numlines = 0 then
      Except.ok (SysOutput.manyLines result)
    else
      Except.ok (SysOutput.manyLines (result.take numlines))

/-- Outcome of `UtilityFunctions.robustDownload`: how many download
attempts (calls to execSystemCommand) were made, and whether the exit
handler was invoked (`some 1` models the call onexit(1), whose default
handler sys.exit terminates the run with status 1; `none` means the loop
broke out after a successful attempt). -/
structure RDResult where
  attempts : Nat
  exitCall : Option Nat
  deriving DecidableEq, Repr

/-- Mirror substitution performed by `robustDownload`:
re.sub("%mirror%", mirror, origexecstring), where the pattern is a literal
so every occurrence of the placeholder is replaced. -/
def substMirror (orig mirror : String) : String :=
  orig.replace "%mirror%" mirror

/-- Loop body of `robustDownload`: try each mirror in order, counting
attempts; break on the first success, otherwise fall through to the
for-else branch which reports exhaustion and calls onexit(1).  The
external download command is abstracted by the predicate `succeeds` on the
substituted command line. -/
def robustDownloadGo (succeeds : String → Bool) (orig : String) :
    List String → Nat → RDResult
  | [], n => ⟨n, some 1⟩
  | m :: rest, n =>
    if succeeds (substMirror orig m) then ⟨n + 1, none⟩
    else robustDownloadGo succeeds orig rest (n + 1)

/-- Shallow embedding of `UtilityFunctions.robustDownload` (the repeat
argument of the source is unused; the loop iterates over the mirror list
once). -/
def robustDownload (succeeds : String → Bool) (orig : String)
    (mirrors : List String) : RDResult :=
  robustDownloadGo succeeds orig mirrors 0

/-- Action values accepted by the option parser for --action (the choices
list in `BaseStarter.ParseOptions`). -/
def actionChoices : List String :=
  ["getversion", "builddeb", "adddebtorepo", "uploadrepo", "cleanup", "all"]

/-- Stage list executed by `MozillaInstaller.start` for a given action and
skipgpg flag, transcribed membership test by membership test from the
source.  Note that three of the gating lists in the source contain the
string "uploadrpo" (sic), not "uploadrepo". -/
def startStages (action : String) (skipgpg : Bool) : List String :=
  (if action ∈ (["builddeb", "adddebtorepo", "uploadrpo", "cleanup", "all"] : List String)
      then ["welcome"] else [])
  ++ ["getLatestVersion"]
  ++ (if action ∈ (["getversion"] : List String) then ["printReleaseVersion"] else [])
  ++ (if action ∈ (["builddeb", "adddebtorepo", "uploadrpo", "cleanup", "all"] : List String)
      then ["confirmLatestVersion"] else [])
  ++ (if action ∈ (["builddeb", "all"] : List String) then
        ["downloadPackage"]
        ++ (if skipgpg then [] else ["downloadGPGSignature", "getMozillaGPGKey"])
        ++ ["getMD5Sum", "verifyMD5Sum", "createDebStructure", "extractArchive",
            "createSymlinks", "createMenuItem", "createDeb"]
      else [])
  ++ (if action ∈ (["adddebtorepo", "all"] : List String) then ["createRepository"] else [])
  ++ (if action ∈ (["uploadrepo", "all"] : List String) then ["syncRepository"] else [])
  ++ (if action ∈ (["cleanup", "all"] : List String) then ["cleanup"] else [])
  ++ (if action ∈ (["builddeb", "adddebtorepo", "uploadrpo", "cleanup", "all"] : List String)
      then ["printSuccessMessage"] else [])

/-- Stage-gating table row from the spec, written from the words of the
spec (section 4.7): for each action, whether each of the six pipeline
stages (resolve version, confirm version, fetch+verify+stage+build,
publish to repo, upload repo, cleanup temp files) runs. -/
def specRow (action : String) : List Bool :=
  if action = "getversion" then [true, false, false, false, false, false]
  else if action = "builddeb" then [true, true, true, false, false, false]
  else if action = "adddebtorepo" then [true, true, false, true, false, false]
  else if action = "uploadrepo" then [true, true, false, false, true, false]
  else if action = "cleanup" then [true, true, false, false, false, true]
  else if action = "all" then [true, true, true, true, true, true]
  else []

/-- Row of six booleans read off the code model `startStages`: whether the
representative method of each spec stage is executed for the action. -/
def codeRow (action : String) (skipgpg : Bool) : List Bool :=
  [(startStages action skipgpg).contains "getLatestVersion",
   (startStages action skipgpg).contains "confirmLatestVersion",
   (startStages action skipgpg).contains "downloadPackage",
   (startStages action skipgpg).contains "createRepository",
   (startStages action skipgpg).contains "syncRepository",
   (startStages action skipgpg).contains "cleanup"]

/-- Result of `MozillaInstaller.confirmLatestVersion`: either the user
quit (sys.exit on the answer "q"), or control proceeds to later stages
with the release version in self.releaseVersion and the last recorded
interactive answer in self.ans. -/
inductive ConfirmOutcome where
  | quit
  | proceed (releaseVersion : String) (lastAns : String)
  deriving DecidableEq, Repr

/-- Inner loop of `MozillaInstaller.askyesno` in attended mode: read
answers from the input stream until one of y, Y, n, N appears, then
lowercase it.  Returns the answer and the remaining stream, or `none` when
the stream is exhausted (the real program would block for more input). -/
def askyesnoLoop : List String → Option (String × List String)
  | [] => none
  | a :: rest =>
    if a = "y" ∨ a = "Y" ∨ a = "n" ∨ a = "N" then some (a.toLower, rest)
    else askyesnoLoop rest

/-- Shallow embedding of `MozillaInstaller.askyesno`: in unattended mode
the answer is "y" without reading any input, otherwise the attended loop
runs. -/
def askyesno (unattended : Bool) (inputs : List String) :
    Option (String × List String) :=
  if unattended then some ("y", inputs) else askyesnoLoop inputs

theorem askyesnoLoop_length_le :
    ∀ (l : List String) (a : String) (r : List String),
      askyesnoLoop l = some (a, r) → r.length ≤ l.length := by
  intro l
  induction l with
  | nil => intro a r h; simp [askyesnoLoop] at h
  | cons x rest ih =>
    intro a r h
    simp only [askyesnoLoop] at h
    split at h
    · simp only [Option.some.injEq, Prod.mk.injEq] at h
      simp [← h.2]
    · exact Nat.le_trans (ih a r h) (Nat.le_succ _)

theorem askyesno_length_le (u : Bool) (l : List String) (a : String)
    (r : List String) (h : askyesno u l = some (a, r)) :
    r.length ≤ l.length := by
  unfold askyesno at h
  split at h
  · simp only [Option.some.injEq, Prod.mk.injEq] at h
    simp [← h.2]
  · exact askyesnoLoop_length_le l a r h

/-- Override loop of `MozillaInstaller.confirmLatestVersion` (the while 1
loop): read a version string; "q" quits immediately; otherwise record the
entered version in self.releaseVersion, ask for confirmation, and break
out of the loop only when the answer is "y". -/
def confirmOverrideLoop (unattended : Bool) (inputs : List String) :
    Option ConfirmOutcome :=
  match inputs with
  | [] => none
  | v :: rest =>
    if v = "q" then some ConfirmOutcome.quit
    else
      match h : askyesno unattended rest with
      | none => none
      | some (a, rest2) =>
        if a = "y" then some (ConfirmOutcome.proceed v a)
        else confirmOverrideLoop unattended rest2
termination_by inputs.length
decreasing_by
  simp only [List.length_cons]
  exact Nat.lt_succ_of_le (askyesno_length_le _ _ _ _ h)

/-- Shallow embedding of `MozillaInstaller.confirmLatestVersion`: ask
whether the detected version is correct; on "y" proceed with it, otherwise
enter the override loop. -/
def confirmLatestVersion (unattended : Bool) (detected : String)
    (inputs : List String) : Option ConfirmOutcome :=
  match askyesno unattended inputs with
  | none => none
  | some (a, rest) =>
    if a = "y" then some (ConfirmOutcome.proceed detected a)
    else confirmOverrideLoop unattended rest

/-- Key ids checked and imported by `MozillaInstaller.getMozillaGPGKey`. -/
def mozillaKeyIds : List String :=
  ["0E3606D9", "812347DD", "6CE2996F"]

/-- Outcome of `MozillaInstaller.getMozillaGPGKey`: the keys were already
present locally (no import attempted); the import loop succeeded after
some number of recv attempts and sleep seconds; or every attempt failed
and sys.exit(1) was called. -/
inductive KeyResult where
  | alreadyPresent
  | imported (attempts : Nat) (sleepSeconds : Nat)
  | exitFailure (code : Nat) (attempts : Nat) (sleepSeconds : Nat)
  deriving DecidableEq, Repr

/-- Inner for-loop over the keyserver list in `getMozillaGPGKey`: one recv
attempt per keyserver, numbered by the running counter `n`; a failed
attempt sleeps 2 seconds; the loop breaks on the first success.  The
external gpg recv command is abstracted by the predicate `recvOk` on the
attempt number. -/
def keyRecvRound (recvOk : Nat → Bool) :
    List String → Nat → Nat → Nat × Nat × Bool
  | [], n, s => (n, s, false)
  | _k :: rest, n, s =>
    if recvOk n then (n + 1, s, true)
    else keyRecvRound recvOk rest (n + 1) (s + 2)

/-- Outer for-loop of `getMozillaGPGKey` (for i in range(0,5)): run the
keyserver round up to `rounds` times, stopping as soon as keySuccess is
set. -/
def keyRecvRounds (recvOk : Nat → Bool) (servers : List String) :
    Nat → Nat → Nat → Nat × Nat × Bool
  | 0, n, s => (n, s, false)
  | i + 1, n, s =>
    match keyRecvRound recvOk servers n s with
    | (n2, s2, true) => (n2, s2, true)
    | (n2, s2, false) => keyRecvRounds recvOk servers i n2 s2

/-- Shallow embedding of `MozillaInstaller.getMozillaGPGKey`: first check
local presence of the three key ids with the read-only command gpg
--list-keys (abstracted by `localOk`); if any check fails the import loop
runs with 5 rounds over the keyserver list; if it never succeeds the run
ends with sys.exit(1). -/
def getMozillaGPGKey (localOk : String → Bool) (recvOk : Nat → Bool)
    (keyservers : List String) : KeyResult :=
  if localOk "0E3606D9" && localOk "812347DD" && localOk "6CE2996F" then
    KeyResult.alreadyPresent
  else
    match keyRecvRounds recvOk keyservers 5 0 0 with
    | (n, s, true) => KeyResult.imported n s
    | (n, s, false) => KeyResult.exitFailure 1 n s

/-- Product variants handled by the script (the --package choices,
dispatched to the four installer classes). -/
inductive Package where
  | firefox
  | firefoxEsr
  | thunderbird
  | seamonkey
  deriving DecidableEq, Repr

/-- Manifest files downloaded by the getMD5Sum method of each variant:
the base `MozillaInstaller.getMD5Sum` (used by firefox, firefox-esr and
thunderbird) fetches SHA512SUMS and its detached signature SHA512SUMS.asc,
while the override `SeamonkeyInstaller.getMD5Sum` fetches (a filtered line
of) MD5SUMS.txt and no signature. -/
def manifestDownloads (p : Package) : List String :=
  match p with
  | Package.seamonkey => ["MD5SUMS.txt"]
  | _ => ["SHA512SUMS", "SHA512SUMS.asc"]

/-- Digest-checking command run by the verifyMD5Sum method of each
variant: md5sum for the seamonkey override, sha512sum for the base
class. -/
def digestCheckCommand (p : Package) : String :=
  match p with
  | Package.seamonkey => "md5sum"
  | _ => "sha512sum"

/-- Whether the variant overrides verifyGPGSignature with a pass
statement (only `SeamonkeyInstaller` does). -/
def verifyGPGSignatureIsNoop (p : Package) : Bool :=
  match p with
  | Package.seamonkey => true
  | _ => false

/-- Whether the variant overrides getMozillaGPGKey with a pass statement
(only `SeamonkeyInstaller` does). -/
def getMozillaGPGKeyIsNoop (p : Package) : Bool :=
  match p with
  | Package.seamonkey => true
  | _ => false

/-- One step of the verification chain as run for a variant: the method
`MozillaInstaller.verifyGPGSignature` runs gpg --verify SHA512SUMS.asc
SHA512SUMS; on a non-zero return code it offers to delete the suspect
files and exits with status 1.  The seamonkey override is a no-op.  The
gpg outcome is abstracted by `gpgOk`; `deleteAns` is the interactive
answer to the deletion offer.  `none` means control continues; `some (d,
c)` means the deletion offer was answered with d and the process exited
with status c. -/
def verifyGPGSignature (p : Package) (gpgOk : Bool) (deleteAns : Bool) :
    Option (Bool × Nat) :=
  if p = Package.seamonkey then none
  else if gpgOk then none
  else some (deleteAns, 1)

/-- The digest comparison step: `MozillaInstaller.verifyMD5Sum` runs
sha512sum -c on the persisted single-line manifest (the seamonkey
override runs md5sum -c); that external tool succeeds exactly when the
digest it computes over the artifact equals the digest recorded in the
line.  On failure the method offers to delete the suspect files and exits
with status 1. -/
def verifyMD5Sum (computedDigest recordedDigest : String)
    (deleteAns : Bool) : Option (Bool × Nat) :=
  if computedDigest = recordedDigest then none
  else some (deleteAns, 1)

/-- Verification outcomes of the integrity phase, in the vocabulary of
the spec: Verified (control proceeds to packaging), SignatureFailed or
ChecksumMismatch (each records the answer to the interactive deletion
offer and the exit status of the terminating sys.exit call). -/
inductive VerificationOutcome where
  | verified
  | signatureFailed (deleted : Bool) (exitCode : Nat)
  | checksumMismatch (deleted : Bool) (exitCode : Nat)
  deriving DecidableEq, Repr

/-- The integrity phase as sequenced by the builddeb stages of
`MozillaInstaller.start`: getMD5Sum calls verifyGPGSignature (which exits
on a bad signature), then verifyMD5Sum runs the digest check (which exits
on a mismatch); only if both pass does control proceed to packaging. -/
def integrityPhase (p : Package) (gpgOk : Bool)
    (computedDigest recordedDigest : String) (deleteAns : Bool) :
    VerificationOutcome :=
  match verifyGPGSignature p gpgOk deleteAns with
  | some (d, c) => VerificationOutcome.signatureFailed d c
  | none =>
    match verifyMD5Sum computedDigest recordedDigest deleteAns with
    | some (d, c) => VerificationOutcome.checksumMismatch d c
    | none => VerificationOutcome.verified

/-- First index at or after `start` (searching `fuel` consecutive
positions) where the boolean predicate holds.  Used below to model the
leftmost rule of sed pattern matching. -/
def findFirstFrom (q : Nat → Bool) : Nat → Nat → Option Nat
  | _start, 0 => none
  | start, fuel + 1 =>
    if q start then some start else findFirstFrom q (start + 1) fuel

/-- Largest index not exceeding the bound where the boolean predicate
holds.  Used below to model the greedy rule of sed matching for a pattern
ending in a literal. -/
def findLastLe (q : Nat → Bool) : Nat → Option Nat
  | 0 => if q 0 then some 0 else none
  | b + 1 => if q (b + 1) then some (b + 1) else findLastLe q b

/-- Occurrence test: the character list `n` occurs in `h` starting at
index `i`. -/
def occursAtB (n h : List Char) (i : Nat) : Bool :=
  decide (n <+: h.drop i)

/-- Literal head of the sed pattern in `SeamonkeyInstaller.getMD5Sum`. -/
def md5Lit : List Char :=
  "md5".data

/-- Literal tail of that sed pattern, for a given architecture string. -/
def linuxPathLit (arch : String) : List Char :=
  ("linux-" ++ arch ++ "/en-US/").data

/-- Shallow embedding of the command
sed -i s#md5.*linux-ARCH/en-US/## run by `SeamonkeyInstaller.getMD5Sum`
on each line of the filtered MD5 manifest.  Sed replaces the
leftmost-longest match of the pattern by the empty string: the match
starts at the first occurrence of "md5" that can be completed to a match
and ends after the last occurrence of the literal "linux-ARCH/en-US/"
(greedy .*); a line without a match is left unchanged.  This behaviour
was checked against sed on concrete lines. -/
def sedMd5Strip (arch : String) (hay : List Char) : List Char :=
  let L := linuxPathLit arch
  match findLastLe (fun j => occursAtB L hay j) hay.length with
  | none => hay
  | some jmax =>
    match findFirstFrom
        (fun p => occursAtB md5Lit hay p && decide (p + 3 ≤ jmax)) 0
        (hay.length + 1) with
    | none => hay
    | some p => hay.take p ++ hay.drop (jmax + L.length)

/-- Awk rewriting from the base `MozillaInstaller.getMD5Sum`: the program
{gsub(".*", F, $2); print $0} applied to a manifest line seen as its list
of whitespace-separated fields.  gsub with a regex matching the entire
field replaces the whole of field 2 by F (assigning field 2 creates it,
as the empty field, when the line has fewer than two fields), and print
emits the rebuilt field list.  This behaviour was checked against awk. -/
def awkRewrite (f : String) : List String → List String
  | f1 :: _f2 :: rest => f1 :: f :: rest
  | [f1] => [f1, f]
  | [] => ["", f]

theorem robustDownloadGo_all_fail (succeeds : String → Bool)
    (orig : String) :
    ∀ (mirrors : List String) (n : Nat),
      (∀ m ∈ mirrors, succeeds (substMirror orig m) = false) →
      robustDownloadGo succeeds orig mirrors n = ⟨n + mirrors.length, some 1⟩ := by
  intro mirrors
  induction mirrors with
  | nil => intro n _; simp [robustDownloadGo]
  | cons m rest ih =>
    intro n hall
    have hm : succeeds (substMirror orig m) = false :=
      hall m (List.mem_cons_self m rest)
    have hrest : ∀ x ∈ rest, succeeds (substMirror orig x) = false :=
      fun x hx => hall x (List.mem_cons_of_mem m hx)
    simp only [robustDownloadGo, hm, Bool.false_eq_true, if_false, ih (n + 1) hrest,
      List.length_cons]
    have harith : n + 1 + rest.length = n + (rest.length + 1) := by omega
    rw [harith]

theorem robustDownloadGo_first_success (succeeds : String → Bool)
    (orig : String) :
    ∀ (mirrors : List String) (k : Nat) (hk : k < mirrors.length) (n : Nat),
      (∀ i (hi : i < k),
        succeeds (substMirror orig (mirrors.get ⟨i, Nat.lt_trans hi hk⟩)) = false) →
      succeeds (substMirror orig (mirrors.get ⟨k, hk⟩)) = true →
      robustDownloadGo succeeds orig mirrors n = ⟨n + k + 1, none⟩ := by
  intro mirrors
  induction mirrors with
  | nil => intro k hk; exact absurd hk (by simp)
  | cons m rest ih =>
    intro k hk n hfail hsucc
    cases k with
    | zero =>
      simp only [List.get] at hsucc
      simp [robustDownloadGo, hsucc]
    | succ k =>
      have hm : succeeds (substMirror orig m) = false := by
        have := hfail 0 (Nat.succ_pos k)
        simpa [List.get] using this
      have hk2 : k < rest.length := Nat.lt_of_succ_lt_succ hk
      have hfail2 : ∀ i (hi : i < k),
          succeeds (substMirror orig (rest.get ⟨i, Nat.lt_trans hi hk2⟩)) = false := by
        intro i hi
        have := hfail (i + 1) (Nat.succ_lt_succ hi)
        simpa [List.get] using this
      have hsucc2 : succeeds (substMirror orig (rest.get ⟨k, hk2⟩)) = true := by
        simpa [List.get] using hsucc
      have := ih k hk2 (n + 1) hfail2 hsucc2
      simp only [robustDownloadGo, hm, Bool.false_eq_true, if_false, this]
      have harith : n + 1 + k + 1 = n + (k + 1) + 1 := by omega
      rw [harith]

/-- C3: when the download command fails on each of the first k mirrors
and succeeds on mirror k, `robustDownload` stops with exactly k + 1
attempts, makes no attempt on any later mirror, and does not call the
exit handler. -/
theorem robustDownload_succeeds_after_k_failures
    (succeeds : String → Bool) (orig : String) (mirrors : List String)
    (k : Nat) (hk : k < mirrors.length)
    (hfail : ∀ i (hi : i < k),
      succeeds (substMirror orig (mirrors.get ⟨i, Nat.lt_trans hi hk⟩)) = false)
    (hsucc : succeeds (substMirror orig (mirrors.get ⟨k, hk⟩)) = true) :
    robustDownload succeeds orig mirrors = ⟨k + 1, none⟩ := by
  unfold robustDownload
  have := robustDownloadGo_first_success succeeds orig mirrors k hk 0 hfail hsucc
  simpa using this

theorem robustDownload_succeeds_after_k_failures_witness :
    robustDownload (fun _ => true) "wget -c %mirror%f.tar.bz2"
      ["http://a/", "http://b/"] = ⟨1, none⟩ := by
  exact robustDownload_succeeds_after_k_failures (fun _ => true)
    "wget -c %mirror%f.tar.bz2" ["http://a/", "http://b/"] 0
    (by decide) (fun i hi => absurd hi (Nat.not_lt_zero i)) rfl

/-- C4: when the download command fails on every mirror, `robustDownload`
makes exactly one attempt per mirror and then invokes the exit handler
onexit(1) (sys.exit by default, so the run terminates with status 1). -/
theorem robustDownload_exhausts_all_mirrors
    (succeeds : String → Bool) (orig : String) (mirrors : List String)
    (hall : ∀ m ∈ mirrors, succeeds (substMirror orig m) = false) :
    robustDownload succeeds orig mirrors = ⟨mirrors.length, some 1⟩ := by
  unfold robustDownload
  have := robustDownloadGo_all_fail succeeds orig mirrors 0 hall
  simpa using this

theorem robustDownload_exhausts_all_mirrors_witness :
    robustDownload (fun _ => false) "wget -c %mirror%f.tar.bz2"
      ["http://a/", "http://b/"] = ⟨2, some 1⟩ := by
  exact robustDownload_exhausts_all_mirrors (fun _ => false)
    "wget -c %mirror%f.tar.bz2" ["http://a/", "http://b/"]
    (fun m _ => rfl)

/-- C9: for every command line containing "w3m", `getSystemOutput` raises
SystemCommandExecutionError whenever the captured output is empty or its
first line starts with "w3m: Can\x27t load", whatever the exit code; for
command lines not containing "w3m", the typed error is raised exactly
when the exit code is non-zero. -/
theorem getSystemOutput_w3m_failure_detection :
    (∀ (cmd : String) (rc : Int) (raw : List String) (n : Nat),
        hasSubstr "w3m" cmd = true →
        (raw = [] ∨ ∃ r0 rest, raw = r0 :: rest ∧
            List.isPrefixOf "w3m: Can\x27t load".data r0.data = true) →
        getSystemOutput cmd rc raw n =
          Except.error PyErr.systemCommandExecutionError)
    ∧ (∀ (cmd : String) (rc : Int) (raw : List String) (n : Nat),
        hasSubstr "w3m" cmd = false →
        (getSystemOutput cmd rc raw n =
            Except.error PyErr.systemCommandExecutionError ↔ rc ≠ 0)) := by
  constructor
  · intro cmd rc raw n hw hbad
    rcases hbad with hnil | ⟨r0, rest, hcons, hpre⟩
    · subst hnil
      simp [getSystemOutput, hw]
    · subst hcons
      simp [getSystemOutput, hw, hpre]
  · intro cmd rc raw n hw
    constructor
    · intro heq hrc0
      subst hrc0
      simp only [getSystemOutput, hw, Bool.false_and, Bool.false_eq_true,
        if_false, ne_eq, not_true_eq_false, reduceIte] at heq
      split at heq
      · cases raw with
        | nil => simp at heq
        | cons x rest => simp at heq
      · split at heq <;> simp at heq
    · intro hrc
      simp [getSystemOutput, hw, hrc]

theorem getSystemOutput_w3m_failure_detection_witness :
    getSystemOutput "w3m -dump url" 0 [] 1 =
      Except.error PyErr.systemCommandExecutionError ∧
    (getSystemOutput "ls /tmp" 3 [] 1 =
        Except.error PyErr.systemCommandExecutionError ↔ (3 : Int) ≠ 0) :=
  ⟨getSystemOutput_w3m_failure_detection.1 "w3m -dump url" 0 [] 1
      (by decide) (Or.inl rfl),
   getSystemOutput_w3m_failure_detection.2 "ls /tmp" 3 [] 1 (by decide)⟩

/-- C10 as stated is refuted by a command line containing "w3m": with
exit status 0 and no output lines, `getSystemOutput` raises the typed
SystemCommandExecutionError (because of the w3m special case), not the
IndexError the claim asserts. -/
theorem getSystemOutput_w3m_empty_counterexample :
    getSystemOutput "w3m" 0 [] 1 =
      Except.error PyErr.systemCommandExecutionError ∧
    getSystemOutput "w3m" 0 [] 1 ≠ Except.error PyErr.indexError := by
  constructor
  · rfl
  · intro h
    have : PyErr.systemCommandExecutionError = PyErr.indexError := by
      have h0 : getSystemOutput "w3m" 0 [] 1 =
          Except.error PyErr.systemCommandExecutionError := rfl
      rw [h0] at h
      exact (Except.error.injEq _ _).mp h
    cases this

/-- C10 amended: for command lines not containing "w3m", exit status 0
with no output lines and numlines = 1 raises the unguarded IndexError;
and every successful single-line call presupposes at least one output
line and returns the first line stripped of surrounding whitespace. -/
theorem getSystemOutput_empty_output_indexError :
    (∀ (cmd : String) (raw : List String),
        hasSubstr "w3m" cmd = false → raw = [] →
        getSystemOutput cmd 0 raw 1 = Except.error PyErr.indexError)
    ∧ (∀ (cmd : String) (rc : Int) (raw : List String) (out : SysOutput),
        getSystemOutput cmd rc raw 1 = Except.ok out →
        ∃ x rest, raw = x :: rest ∧ out = SysOutput.oneLine x.trim) := by
  constructor
  · intro cmd raw hw hnil
    subst hnil
    simp [getSystemOutput, hw]
  · intro cmd rc raw out hok
    simp only [getSystemOutput, reduceIte] at hok
    split at hok
    · cases hok
    · cases raw with
      | nil => split at hok <;> cases hok
      | cons x rest =>
        refine ⟨x, rest, rfl, ?_⟩
        simp only [List.map_cons] at hok
        split at hok
        · cases hok
        · exact ((Except.ok.injEq _ _).mp hok).symm

theorem getSystemOutput_empty_output_indexError_witness :
    getSystemOutput "ls /tmp" 0 [] 1 = Except.error PyErr.indexError ∧
    (∃ x rest, ([" out "] : List String) = x :: rest ∧
        SysOutput.oneLine (" out ".trim) = SysOutput.oneLine x.trim) :=
  ⟨getSystemOutput_empty_output_indexError.1 "ls /tmp" [] (by decide) rfl,
   getSystemOutput_empty_output_indexError.2 "ls /tmp" 0 [" out "]
      (SysOutput.oneLine (" out ".trim)) rfl⟩

/-- C2: the integrity phase yields Verified (control proceeds to
packaging) iff the gpg signature verification passes whenever it applies
to the variant (every variant except seamonkey) and the digest computed
over the downloaded artifact equals the digest recorded in the persisted
manifest line; a failing signature check yields SignatureFailed and a
digest mismatch yields ChecksumMismatch, each with the interactive
deletion offer and exit status 1, and a Verified result is never produced
from a failing check. -/
theorem integrityPhase_verified_iff :
    ∀ (p : Package) (gpgOk : Bool) (computed recorded : String) (del : Bool),
      (integrityPhase p gpgOk computed recorded del =
          VerificationOutcome.verified ↔
        ((p ≠ Package.seamonkey → gpgOk = true) ∧ computed = recorded))
      ∧ (p ≠ Package.seamonkey → gpgOk = false →
          integrityPhase p gpgOk computed recorded del =
            VerificationOutcome.signatureFailed del 1)
      ∧ ((p = Package.seamonkey ∨ gpgOk = true) → computed ≠ recorded →
          integrityPhase p gpgOk computed recorded del =
            VerificationOutcome.checksumMismatch del 1) := by
  intro p gpgOk computed recorded del
  by_cases hp : p = Package.seamonkey <;>
    cases gpgOk <;>
      by_cases hc : computed = recorded <;>
        simp [integrityPhase, verifyGPGSignature, verifyMD5Sum, hp, hc]

theorem integrityPhase_verified_iff_witness :
    integrityPhase Package.seamonkey true "xyz999" "abc123" false =
      VerificationOutcome.checksumMismatch false 1 :=
  (integrityPhase_verified_iff Package.seamonkey true "xyz999" "abc123"
      false).2.2 (Or.inl rfl) (by decide)

/-- C6: seamonkey is the only variant whose key-acquisition and
signature-verification methods are no-ops and which downloads no detached
signature; it fetches MD5SUMS.txt (through its own filtered query) and
checks the artifact with md5sum, while each of the other three variants
fetches SHA512SUMS together with SHA512SUMS.asc and checks with
sha512sum. -/
theorem seamonkey_variant_policy :
    (∀ p : Package,
      (verifyGPGSignatureIsNoop p = true ∧ getMozillaGPGKeyIsNoop p = true ∧
        ("SHA512SUMS.asc" ∈ manifestDownloads p → False)) ↔
        p = Package.seamonkey)
    ∧ manifestDownloads Package.seamonkey = ["MD5SUMS.txt"]
    ∧ digestCheckCommand Package.seamonkey = "md5sum"
    ∧ (∀ p : Package, p ≠ Package.seamonkey →
        manifestDownloads p = ["SHA512SUMS", "SHA512SUMS.asc"] ∧
        digestCheckCommand p = "sha512sum") := by
  refine ⟨?_, rfl, rfl, ?_⟩
  · intro p
    cases p <;>
      simp [verifyGPGSignatureIsNoop, getMozillaGPGKeyIsNoop, manifestDownloads]
  · intro p hp
    cases p <;> simp_all [manifestDownloads, digestCheckCommand]

theorem seamonkey_variant_policy_witness :
    (manifestDownloads Package.firefox = ["SHA512SUMS", "SHA512SUMS.asc"] ∧
      digestCheckCommand Package.firefox = "sha512sum") ∧
    Package.seamonkey = Package.seamonkey :=
  ⟨seamonkey_variant_policy.2.2.2 Package.firefox (by decide),
   (seamonkey_variant_policy.1 Package.seamonkey).mp
     ⟨rfl, rfl, by decide⟩⟩

/-- C1 fails on the code for the uploadrepo action: the source gates
welcome, confirmLatestVersion and printSuccessMessage on membership in a
list that misspells the action as "uploadrpo", a value the option parser
can never produce, so the confirm-version stage is skipped for the Upload
action even though the stage-gating table marks it as executed; every
other action matches its table row exactly. -/
theorem start_uploadrepo_gating_divergence :
    ("uploadrepo" ∈ actionChoices)
    ∧ ("uploadrpo" ∉ actionChoices)
    ∧ ((startStages "uploadrepo" false).contains "confirmLatestVersion" = false)
    ∧ (codeRow "uploadrepo" false ≠ specRow "uploadrepo")
    ∧ (∀ a ∈ actionChoices, a ≠ "uploadrepo" →
        codeRow a false = specRow a ∧ codeRow a true = specRow a)
    ∧ (codeRow "uploadrepo" false = [true, false, false, false, true, false]) := by
  decide

theorem start_uploadrepo_gating_divergence_witness :
    codeRow "builddeb" false = specRow "builddeb" ∧
    codeRow "builddeb" true = specRow "builddeb" :=
  start_uploadrepo_gating_divergence.2.2.2.2.1 "builddeb" (by decide)
    (by decide)

theorem confirmOverrideLoop_only_confirmed :
    ∀ (n : Nat) (inputs : List String), inputs.length ≤ n →
      ∀ (u : Bool) (out : ConfirmOutcome),
        confirmOverrideLoop u inputs = some out →
        out = ConfirmOutcome.quit ∨
          ∃ v, out = ConfirmOutcome.proceed v "y" := by
  intro n
  induction n with
  | zero =>
    intro inputs hlen u out h
    have hnil : inputs = [] := List.eq_nil_of_length_eq_zero (Nat.le_zero.mp hlen)
    subst hnil
    simp [confirmOverrideLoop] at h
  | succ n ih =>
    intro inputs hlen u out h
    cases inputs with
    | nil => simp [confirmOverrideLoop] at h
    | cons v rest =>
      rw [confirmOverrideLoop] at h
      split at h
      · exact Or.inl (Option.some.inj h).symm
      · split at h
        · exact Option.noConfusion h
        · rename_i a rest2 hask
          split at h
          · rename_i hy
            subst hy
            exact Or.inr ⟨v, (Option.some.inj h).symm⟩
          · have hr2 : rest2.length ≤ n := by
              have h1 := askyesno_length_le u rest a rest2 hask
              have h2 : rest.length + 1 ≤ n + 1 := by
                simpa using hlen
              omega
            exact ih rest2 hr2 u out h

/-- C5: control never proceeds past version confirmation with an
unconfirmed version: whenever `confirmLatestVersion` resolves, the
outcome is either the immediate quit on the answer "q", or a proceed
outcome whose last recorded interactive answer is the confirming "y"; in
unattended mode the detected version is auto-confirmed at once; and a
version entry of "q" in the override loop quits immediately. -/
theorem confirmLatestVersion_only_confirmed :
    (∀ (u : Bool) (d : String) (inputs : List String) (out : ConfirmOutcome),
        confirmLatestVersion u d inputs = some out →
        out = ConfirmOutcome.quit ∨
          ∃ v, out = ConfirmOutcome.proceed v "y")
    ∧ (∀ (d : String) (inputs : List String),
        confirmLatestVersion true d inputs =
          some (ConfirmOutcome.proceed d "y"))
    ∧ (∀ (u : Bool) (rest : List String),
        confirmOverrideLoop u ("q" :: rest) = some ConfirmOutcome.quit) := by
  refine ⟨?_, ?_, ?_⟩
  · intro u d inputs out h
    unfold confirmLatestVersion at h
    cases hask : askyesno u inputs with
    | none =>
      simp only [hask] at h
      exact Option.noConfusion h
    | some p =>
      obtain ⟨a, rest⟩ := p
      simp only [hask] at h
      split at h
      · rename_i hy
        subst hy
        exact Or.inr ⟨d, (Option.some.inj h).symm⟩
      · exact confirmOverrideLoop_only_confirmed rest.length rest
          (Nat.le_refl _) u out h
  · intro d inputs
    simp [confirmLatestVersion, askyesno]
  · intro u rest
    rw [confirmOverrideLoop]
    simp

theorem confirmLatestVersion_only_confirmed_witness :
    (ConfirmOutcome.proceed "102.0" "y" = ConfirmOutcome.quit ∨
      ∃ v, ConfirmOutcome.proceed "102.0" "y" = ConfirmOutcome.proceed v "y") ∧
    confirmOverrideLoop false ["q"] = some ConfirmOutcome.quit :=
  ⟨confirmLatestVersion_only_confirmed.1 true "102.0" []
      (ConfirmOutcome.proceed "102.0" "y") rfl,
   confirmLatestVersion_only_confirmed.2.2 false []⟩

theorem keyRecvRound_all_fail (recvOk : Nat → Bool) :
    ∀ (servers : List String) (n s : Nat),
      (∀ i, i < servers.length → recvOk (n + i) = false) →
      keyRecvRound recvOk servers n s =
        (n + servers.length, s + 2 * servers.length, false) := by
  intro servers
  induction servers with
  | nil => intro n s _; simp [keyRecvRound]
  | cons k rest ih =>
    intro n s hall
    have h0 : recvOk n = false := by simpa using hall 0 (Nat.succ_pos _)
    have hrest : ∀ i, i < rest.length → recvOk (n + 1 + i) = false := by
      intro i hi
      have := hall (i + 1) (Nat.succ_lt_succ hi)
      have harith : n + (i + 1) = n + 1 + i := by omega
      rwa [harith] at this
    simp only [keyRecvRound, h0, Bool.false_eq_true, if_false,
      ih (n + 1) (s + 2) hrest, List.length_cons]
    have h1 : n + 1 + rest.length = n + (rest.length + 1) := by omega
    have h2 : s + 2 + 2 * rest.length = s + 2 * (rest.length + 1) := by omega
    rw [h1, h2]

theorem keyRecvRound_first_success (recvOk : Nat → Bool) :
    ∀ (servers : List String) (m n s : Nat), m < servers.length →
      (∀ i, i < m → recvOk (n + i) = false) → recvOk (n + m) = true →
      keyRecvRound recvOk servers n s = (n + m + 1, s + 2 * m, true) := by
  intro servers
  induction servers with
  | nil => intro m n s hm; exact absurd hm (by simp)
  | cons k rest ih =>
    intro m n s hm hfail hsucc
    cases m with
    | zero =>
      have h0 : recvOk n = true := by simpa using hsucc
      simp [keyRecvRound, h0]
    | succ m =>
      have h0 : recvOk n = false := by simpa using hfail 0 (Nat.succ_pos _)
      have hm2 : m < rest.length := Nat.lt_of_succ_lt_succ hm
      have hfail2 : ∀ i, i < m → recvOk (n + 1 + i) = false := by
        intro i hi
        have := hfail (i + 1) (Nat.succ_lt_succ hi)
        have harith : n + (i + 1) = n + 1 + i := by omega
        rwa [harith] at this
      have hsucc2 : recvOk (n + 1 + m) = true := by
        have harith : n + (m + 1) = n + 1 + m := by omega
        rwa [harith] at hsucc
      simp only [keyRecvRound, h0, Bool.false_eq_true, if_false,
        ih m (n + 1) (s + 2) hm2 hfail2 hsucc2]
      have h1 : n + 1 + m + 1 = n + (m + 1) + 1 := by omega
      have h2 : s + 2 + 2 * m = s + 2 * (m + 1) := by omega
      rw [h1, h2]

theorem keyRecvRounds_all_fail (recvOk : Nat → Bool) (servers : List String) :
    ∀ (r n s : Nat),
      (∀ i, i < r * servers.length → recvOk (n + i) = false) →
      keyRecvRounds recvOk servers r n s =
        (n + r * servers.length, s + 2 * (r * servers.length), false) := by
  intro r
  induction r with
  | zero => intro n s _; simp [keyRecvRounds]
  | succ r ih =>
    intro n s hall
    have hexp : (r + 1) * servers.length =
        r * servers.length + servers.length := by ring
    have hround : ∀ i, i < servers.length → recvOk (n + i) = false := by
      intro i hi
      exact hall i (by omega)
    have hrest : ∀ i, i < r * servers.length →
        recvOk (n + servers.length + i) = false := by
      intro i hi
      have := hall (servers.length + i) (by omega)
      have harith : n + (servers.length + i) = n + servers.length + i := by omega
      rwa [harith] at this
    simp only [keyRecvRounds, keyRecvRound_all_fail recvOk servers n s hround,
      ih (n + servers.length) (s + 2 * servers.length) hrest]
    have h1 : n + servers.length + r * servers.length =
        n + (r + 1) * servers.length := by ring
    have h2 : s + 2 * servers.length + 2 * (r * servers.length) =
        s + 2 * ((r + 1) * servers.length) := by ring
    rw [h1, h2]

theorem keyRecvRounds_first_success (recvOk : Nat → Bool)
    (servers : List String) :
    ∀ (r n s j : Nat), j < r * servers.length →
      (∀ i, i < j → recvOk (n + i) = false) → recvOk (n + j) = true →
      keyRecvRounds recvOk servers r n s = (n + j + 1, s + 2 * j, true) := by
  intro r
  induction r with
  | zero => intro n s j hj; simp at hj
  | succ r ih =>
    intro n s j hj hfail hsucc
    by_cases hjL : j < servers.length
    · simp only [keyRecvRounds,
        keyRecvRound_first_success recvOk servers j n s hjL hfail hsucc]
    · push_neg at hjL
      have hround : ∀ i, i < servers.length → recvOk (n + i) = false := by
        intro i hi
        exact hfail i (by omega)
      have hj2 : j - servers.length < r * servers.length := by
        have : (r + 1) * servers.length = r * servers.length + servers.length := by
          ring
        omega
      have hfail2 : ∀ i, i < j - servers.length →
          recvOk (n + servers.length + i) = false := by
        intro i hi
        have := hfail (servers.length + i) (by omega)
        have harith : n + (servers.length + i) = n + servers.length + i := by
          omega
        rwa [harith] at this
      have hsucc2 : recvOk (n + servers.length + (j - servers.length)) = true := by
        have harith : n + servers.length + (j - servers.length) = n + j := by
          omega
        rwa [harith]
      simp only [keyRecvRounds, keyRecvRound_all_fail recvOk servers n s hround,
        ih (n + servers.length) (s + 2 * servers.length) (j - servers.length)
          hj2 hfail2 hsucc2]
      have h1 : n + servers.length + (j - servers.length) + 1 = n + j + 1 := by
        omega
      have h2 : s + 2 * servers.length + 2 * (j - servers.length) =
          s + 2 * j := by omega
      rw [h1, h2]

/-- C7: key acquisition first checks local presence of each required key
id with the read-only listing command; when all three are present no key
retrieval is attempted; when any is missing, the import loop runs over the
keyserver list for up to 5 rounds, sleeping 2 seconds after each failed
attempt, returns as soon as one recv attempt (which imports the full key
set) succeeds, and after all attempts fail calls sys.exit(1) having made
exactly 5 times the number of keyservers attempts. -/
theorem getMozillaGPGKey_behaviour :
    (∀ (lo : String → Bool) (ro : Nat → Bool) (ks : List String),
        (∀ k ∈ mozillaKeyIds, lo k = true) →
        getMozillaGPGKey lo ro ks = KeyResult.alreadyPresent)
    ∧ (∀ (lo : String → Bool) (ro : Nat → Bool) (ks : List String) (j : Nat),
        (lo "0E3606D9" && lo "812347DD" && lo "6CE2996F") = false →
        j < 5 * ks.length → (∀ i, i < j → ro i = false) → ro j = true →
        getMozillaGPGKey lo ro ks = KeyResult.imported (j + 1) (2 * j))
    ∧ (∀ (lo : String → Bool) (ro : Nat → Bool) (ks : List String),
        (lo "0E3606D9" && lo "812347DD" && lo "6CE2996F") = false →
        (∀ i, i < 5 * ks.length → ro i = false) →
        getMozillaGPGKey lo ro ks =
          KeyResult.exitFailure 1 (5 * ks.length) (2 * (5 * ks.length))) := by
  refine ⟨?_, ?_, ?_⟩
  · intro lo ro ks hall
    have h1 : lo "0E3606D9" = true := hall _ (by simp [mozillaKeyIds])
    have h2 : lo "812347DD" = true := hall _ (by simp [mozillaKeyIds])
    have h3 : lo "6CE2996F" = true := hall _ (by simp [mozillaKeyIds])
    simp [getMozillaGPGKey, h1, h2, h3]
  · intro lo ro ks j hmiss hj hfail hsucc
    have hfail0 : ∀ i, i < j → ro (0 + i) = false := by
      intro i hi; simpa using hfail i hi
    have hsucc0 : ro (0 + j) = true := by simpa using hsucc
    have hrounds := keyRecvRounds_first_success ro ks 5 0 0 j hj hfail0 hsucc0
    simp only [getMozillaGPGKey, hmiss, Bool.false_eq_true, if_false, hrounds]
    simp
  · intro lo ro ks hmiss hall
    have hall0 : ∀ i, i < 5 * ks.length → ro (0 + i) = false := by
      intro i hi; simpa using hall i hi
    have hrounds := keyRecvRounds_all_fail ro ks 5 0 0 hall0
    simp only [getMozillaGPGKey, hmiss, Bool.false_eq_true, if_false, hrounds]
    simp

theorem getMozillaGPGKey_behaviour_witness :
    getMozillaGPGKey (fun _ => true) (fun _ => false) ["subkeys.pgp.net"] =
      KeyResult.alreadyPresent ∧
    getMozillaGPGKey (fun _ => false) (fun _ => true) ["pgp.mit.edu"] =
      KeyResult.imported 1 0 ∧
    getMozillaGPGKey (fun _ => false) (fun _ => false) [] =
      KeyResult.exitFailure 1 0 0 :=
  ⟨getMozillaGPGKey_behaviour.1 (fun _ => true) (fun _ => false)
      ["subkeys.pgp.net"] (fun _ _ => rfl),
   getMozillaGPGKey_behaviour.2.1 (fun _ => false) (fun _ => true)
      ["pgp.mit.edu"] 0 rfl (by decide)
      (fun i hi => absurd hi (Nat.not_lt_zero i)) rfl,
   getMozillaGPGKey_behaviour.2.2 (fun _ => false) (fun _ => false) [] rfl
      (fun i hi => absurd hi (by simp))⟩

theorem findFirstFrom_some (q : Nat → Bool) :
    ∀ (fuel start p : Nat), findFirstFrom q start fuel = some p →
      q p = true ∧ start ≤ p ∧ p < start + fuel ∧
        ∀ k, start ≤ k → k < p → q k = false := by
  intro fuel
  induction fuel with
  | zero => intro start p h; simp [findFirstFrom] at h
  | succ fuel ih =>
    intro start p h
    rw [findFirstFrom] at h
    split at h
    · rename_i hq
      cases h
      exact ⟨hq, Nat.le_refl _, by omega,
        fun k hk1 hk2 => absurd hk2 (by omega)⟩
    · rename_i hq
      obtain ⟨h1, h2, h3, h4⟩ := ih (start + 1) p h
      refine ⟨h1, by omega, by omega, ?_⟩
      intro k hk1 hk2
      rcases Nat.eq_or_lt_of_le hk1 with heq | hlt
      · rw [← heq]
        cases hqq : q start
        · rfl
        · exact absurd hqq hq
      · exact h4 k hlt hk2

theorem findLastLe_some (q : Nat → Bool) :
    ∀ (b j : Nat), findLastLe q b = some j →
      q j = true ∧ j ≤ b ∧ ∀ k, j < k → k ≤ b → q k = false := by
  intro b
  induction b with
  | zero =>
    intro j h
    rw [findLastLe] at h
    split at h
    · rename_i hq
      cases h
      exact ⟨hq, Nat.le_refl _, fun k hk1 hk2 => absurd hk2 (by omega)⟩
    · exact Option.noConfusion h
  | succ b ih =>
    intro j h
    rw [findLastLe] at h
    split at h
    · rename_i hq
      cases h
      exact ⟨hq, Nat.le_refl _, fun k hk1 hk2 => absurd hk2 (by omega)⟩
    · rename_i hq
      obtain ⟨h1, h2, h3⟩ := ih j h
      refine ⟨h1, by omega, ?_⟩
      intro k hk1 hk2
      rcases Nat.eq_or_lt_of_le hk2 with heq | hlt
      · rw [heq]
        cases hqq : q (b + 1)
        · rfl
        · exact absurd hqq hq
      · exact h3 k hk1 (by omega)

theorem occ_le_length (n s : List Char) (i : Nat) (hn : 0 < n.length)
    (h : occursAtB n s i = true) : i + n.length ≤ s.length := by
  simp only [occursAtB, decide_eq_true_eq] at h
  have := h.length_le
  rw [List.length_drop] at this
  omega

theorem occ_append_left (n A B : List Char) (i : Nat)
    (hlen : i + n.length ≤ A.length)
    (h : occursAtB n (A ++ B) i = true) : occursAtB n A i = true := by
  simp only [occursAtB, decide_eq_true_eq] at h ⊢
  rw [List.drop_append_eq_append_drop] at h
  have hz : i - A.length = 0 := by omega
  rw [hz, List.drop_zero] at h
  have heq := List.prefix_iff_eq_take.mp h
  rw [List.take_append_eq_append_take] at heq
  have hz2 : n.length - (A.drop i).length = 0 := by
    rw [List.length_drop]; omega
  rw [hz2, List.take_zero, List.append_nil] at heq
  exact List.prefix_iff_eq_take.mpr heq

theorem occ_take (n s : List Char) (p i : Nat)
    (h : occursAtB n (s.take p) i = true) : occursAtB n s i = true := by
  simp only [occursAtB, decide_eq_true_eq] at h ⊢
  rw [List.drop_take] at h
  exact h.trans (List.take_prefix _ _)

theorem occ_append_right (n A B : List Char) (i : Nat)
    (hi : A.length ≤ i)
    (h : occursAtB n (A ++ B) i = true) :
    occursAtB n B (i - A.length) = true := by
  simp only [occursAtB, decide_eq_true_eq] at h ⊢
  rw [List.drop_append_eq_append_drop, List.drop_eq_nil_of_le hi,
    List.nil_append] at h
  exact h

theorem occ_drop (n s : List Char) (e m : Nat)
    (h : occursAtB n (s.drop e) m = true) :
    occursAtB n s (e + m) = true := by
  simp only [occursAtB, decide_eq_true_eq] at h ⊢
  rw [List.drop_drop] at h
  exact h

theorem sedMd5Strip_no_match (arch : String) (s : List Char)
    (hno : ∀ p j, occursAtB md5Lit s p = true →
      occursAtB (linuxPathLit arch) s j = true → j ≤ s.length →
      p + 3 ≤ j → False) :
    sedMd5Strip arch s = s := by
  simp only [sedMd5Strip]
  cases hL : findLastLe (fun j => occursAtB (linuxPathLit arch) s j)
      s.length with
  | none => simp [hL]
  | some jmax =>
    obtain ⟨hq, hle, _⟩ := findLastLe_some _ _ _ hL
    cases hF : findFirstFrom
        (fun p => occursAtB md5Lit s p && decide (p + 3 ≤ jmax)) 0
        (s.length + 1) with
    | none => simp [hL, hF]
    | some p =>
      obtain ⟨hqp, _, _, _⟩ := findFirstFrom_some _ _ _ _ hF
      simp only [Bool.and_eq_true, decide_eq_true_eq] at hqp
      exact (hno p jmax hqp.1 hq hle hqp.2).elim

theorem linuxPathLit_pos (arch : String) : 0 < (linuxPathLit arch).length := by
  have : (linuxPathLit arch) = "linux-".data ++ (arch.data ++ "/en-US/".data) := by
    simp [linuxPathLit]
  rw [this, List.length_append]
  have h6 : ("linux-".data).length = 6 := rfl
  omega

theorem sedMd5Strip_idem (arch : String) (hay : List Char) :
    sedMd5Strip arch (sedMd5Strip arch hay) = sedMd5Strip arch hay := by
  cases hL : findLastLe (fun j => occursAtB (linuxPathLit arch) hay j)
      hay.length with
  | none =>
    have hid : sedMd5Strip arch hay = hay := by
      simp only [sedMd5Strip, hL]
    rw [hid, hid]
  | some jmax =>
    cases hF : findFirstFrom
        (fun p => occursAtB md5Lit hay p && decide (p + 3 ≤ jmax)) 0
        (hay.length + 1) with
    | none =>
      have hid : sedMd5Strip arch hay = hay := by
        simp only [sedMd5Strip, hL, hF]
      rw [hid, hid]
    | some p =>
      have hres : sedMd5Strip arch hay =
          hay.take p ++ hay.drop (jmax + (linuxPathLit arch).length) := by
        simp only [sedMd5Strip, hL, hF]
      rw [hres]
      apply sedMd5Strip_no_match
      intro p2 j2 hm2 hl2 _ hple
      obtain ⟨hqL, hjle, hmax⟩ := findLastLe_some _ _ _ hL
      obtain ⟨hqP, _, _, hmin⟩ := findFirstFrom_some _ _ _ _ hF
      simp only [Bool.and_eq_true, decide_eq_true_eq] at hqP
      obtain ⟨hpm, hpj⟩ := hqP
      have hLlen : 0 < (linuxPathLit arch).length := linuxPathLit_pos arch
      have hmd5len : md5Lit.length = 3 := rfl
      have hpbound : p + 3 ≤ hay.length := by
        have := occ_le_length md5Lit hay p (by omega) hpm
        omega
      have hAlen : (hay.take p).length = p := by
        rw [List.length_take]; omega
      by_cases hcase : p2 + 3 ≤ p
      · have hA : occursAtB md5Lit (hay.take p) p2 = true := by
          apply occ_append_left md5Lit (hay.take p) _ p2 ?_ hm2
          rw [hAlen, hmd5len]
          exact hcase
        have hhay : occursAtB md5Lit hay p2 = true := occ_take _ _ _ _ hA
        have hmink := hmin p2 (Nat.zero_le _) (by omega)
        rw [hhay] at hmink
        simp only [Bool.true_and, decide_eq_false_iff_not] at hmink
        exact hmink (by omega)
      · push_neg at hcase
        have hB : occursAtB (linuxPathLit arch)
            (hay.drop (jmax + (linuxPathLit arch).length)) (j2 - p) = true := by
          have := occ_append_right (linuxPathLit arch) (hay.take p) _ j2
            (by rw [hAlen]; omega) hl2
          rwa [hAlen] at this
        have hhay : occursAtB (linuxPathLit arch) hay
            (jmax + (linuxPathLit arch).length + (j2 - p)) = true :=
          occ_drop _ _ _ _ hB
        have hqle : jmax + (linuxPathLit arch).length + (j2 - p) ≤
            hay.length := by
          have := occ_le_length _ hay _ hLlen hhay
          omega
        have hfalse := hmax _ (by omega) hqle
        rw [hfalse] at hhay
        exact Bool.noConfusion hhay

theorem awkRewrite_idem (f : String) (l : List String) :
    awkRewrite f (awkRewrite f l) = awkRewrite f l := by
  match l with
  | [] => rfl
  | [f1] => rfl
  | f1 :: f2 :: rest => rfl

/-- C8: the checksum-manifest filename rewriting is idempotent: the awk
field-2 substitution used by the base getMD5Sum maps the result of a
previous application (a line whose second field already holds the local
artifact filename) to itself, and the sed path-prefix removal used by
the seamonkey getMD5Sum maps the result of a previous application to
itself; in particular a line in which the local artifact filename is
already in place is left unchanged by a second rewriting. -/
theorem checksumRewrite_idempotent :
    (∀ (f : String) (l : List String),
        awkRewrite f (awkRewrite f l) = awkRewrite f l)
    ∧ (∀ (arch : String) (line : List Char),
        sedMd5Strip arch (sedMd5Strip arch line) = sedMd5Strip arch line) :=
  ⟨awkRewrite_idem, sedMd5Strip_idem⟩

theorem checksumRewrite_idempotent_witness :
    awkRewrite "seamonkey-2.53.tar.bz2"
        (awkRewrite "seamonkey-2.53.tar.bz2"
          ["91360c07aea125dbc3e03e33de4db01a", "./linux-i686/en-US/x"]) =
      awkRewrite "seamonkey-2.53.tar.bz2"
        ["91360c07aea125dbc3e03e33de4db01a", "./linux-i686/en-US/x"] ∧
    sedMd5Strip "i686"
        (sedMd5Strip "i686" "hash md5 123 ./linux-i686/en-US/a.tar.bz2".data) =
      sedMd5Strip "i686" "hash md5 123 ./linux-i686/en-US/a.tar.bz2".data :=
  ⟨checksumRewrite_idempotent.1 _ _, checksumRewrite_idempotent.2 _ _⟩

end Ubuntuzilla
